import Mathlib

set_option autoImplicit false

/-
  Shallow embedding of the simulation core of vxern/snake_game
  (src/game.rs together with src/structs.rs and src/constants.rs;
  src/main.rs holds a near-identical legacy copy of the same logic).

  Machine integers (Rust usize) are modelled as Nat: no arithmetic in the
  embedded code paths can overflow for the grid sizes involved, and all
  subtractions in the source are guarded by the checks that the embedding
  reproduces.  Rust panics (out-of-bounds Vec indexing, rand's empty-range
  panic) surface as Except.error; the randomness of thread_rng is
  parametrised: the constructor takes the list of successive fruit draws
  produced by gen_range (each in-range by construction of gen_range), and
  the tick takes the index drawn by gen_range(0..unoccupied.len()),
  reduced modulo the number of unoccupied tiles, which is the identity on
  every value the source generator can produce.
-/

namespace Snake

/-- MILLISECONDS_PER_FRAME from constants.rs. -/
def MILLISECONDS_PER_FRAME : Nat := 300

/-- The struct Vector of structs.rs: an integer pair. -/
structure Vector where
  x : Nat
  y : Nat
deriving DecidableEq, Repr

/-- The enum Direction of structs.rs. -/
inductive Direction where
  | Up
  | Down
  | Right
  | Left
deriving DecidableEq, Repr

/-- Opposite pairs of directions (Up/Down, Left/Right). -/
def Direction.opposite : Direction → Direction
  | .Up => .Down
  | .Down => .Up
  | .Right => .Left
  | .Left => .Right

/-- The enum State of structs.rs. -/
inductive State where
  | Running
  | Won
  | Lost
deriving DecidableEq, Repr

/-- The struct Tile of structs.rs. -/
structure Tile where
  position : Vector
  is_occupied : Bool
deriving DecidableEq, Repr

/-- The struct GameState of game.rs.  tail_positions models the VecDeque,
list head = deque front (most recently vacated head cell). -/
structure GameState where
  head_position : Vector
  tail_positions : List Vector
  dimensions : Vector
  tiles : List (List Tile)
  fruit_position : Vector
  movement_direction : Direction
  queued_direction : Option Direction
  state : State
  ms_since_last_update : Nat
deriving DecidableEq, Repr

/-- The tile grid built by the constructor loops of GameState::new:
outer index y (rows), inner index x, tile position (x, y), unoccupied. -/
def mkTiles (dims : Vector) : List (List Tile) :=
  (List.range dims.y).map fun y => (List.range dims.x).map fun x => ⟨⟨x, y⟩, false⟩

/-- Write is_occupied := b at outer index i, inner index j, as a Rust
indexed assignment: none models the out-of-bounds panic. -/
def setOcc? (tiles : List (List Tile)) (i j : Nat) (b : Bool) :
    Option (List (List Tile)) :=
  match tiles[i]? with
  | none => none
  | some row =>
    match row[j]? with
    | none => none
    | some t => some (tiles.set i (row.set j ⟨t.position, b⟩))

/-- Read the tile at outer index i, inner index j. -/
def getTile? (tiles : List (List Tile)) (i j : Nat) : Option Tile :=
  tiles[i]?.bind fun row => row[j]?

/-- Row-major coordinates of the unoccupied tiles, in the order
GameState::place_fruit collects them (iter over rows, filter, flatten). -/
def unoccupiedCoords (tiles : List (List Tile)) : List (Nat × Nat) :=
  (tiles.enum.map fun p =>
    (p.2.enum.filter fun q => !q.2.is_occupied).map fun q => (p.1, q.1)).flatten

/-- GameState::place_fruit.  idx is the gen_range(0..unoccupied.len())
draw; as gen_range only yields values below the length, idx is reduced
modulo the length, the identity on every value the source can draw.
Returns the new fruit position and the updated grid, or none when no
unoccupied tile exists. -/
def place_fruit (tiles : List (List Tile)) (idx : Nat) :
    Option (Vector × List (List Tile)) :=
  let unocc := unoccupiedCoords tiles
  if hu : unocc.length = 0 then none
  else
    let c := unocc.get ⟨idx % unocc.length, Nat.mod_lt _ (Nat.pos_of_ne_zero hu)⟩
    match getTile? tiles c.1 c.2 with
    | none => none
    | some t =>
      match setOcc? tiles c.1 c.2 true with
      | none => none
      | some tiles2 => some (t.position, tiles2)

/-- The keycodes distinguished by GameState::key_down_event; Other covers
every key matched by the wildcard arm. -/
inductive KeyCode where
  | Up
  | Down
  | Left
  | Right
  | Other
deriving DecidableEq, Repr

/-- GameState::key_down_event of game.rs. -/
def key_down_event (g : GameState) (k : KeyCode) : GameState :=
  match k with
  | .Up =>
    if g.movement_direction = Direction.Down then g
    else { g with queued_direction := some Direction.Up }
  | .Down =>
    if g.movement_direction = Direction.Up then g
    else { g with queued_direction := some Direction.Down }
  | .Left =>
    if g.movement_direction = Direction.Right then g
    else { g with queued_direction := some Direction.Left }
  | .Right =>
    if g.movement_direction = Direction.Left then g
    else { g with queued_direction := some Direction.Right }
  | .Other => g

/-- The arrow key delivering a given direction. -/
def keyOf : Direction → KeyCode
  | .Up => .Up
  | .Down => .Down
  | .Left => .Left
  | .Right => .Right

/-- The spec's handle_direction_input(direction): the direction input as
delivered by its arrow key. -/
def handle_direction_input (g : GameState) (d : Direction) : GameState :=
  key_down_event g (keyOf d)

/-- The movement match of GameState::update: boundary check and head
displacement; none models the Lost-on-boundary early return. -/
def moveHead (d : Direction) (p dims : Vector) : Option Vector :=
  match d with
  | .Up => if p.y = 0 then none else some ⟨p.x, p.y - 1⟩
  | .Down => if p.y + 1 = dims.y then none else some ⟨p.x, p.y + 1⟩
  | .Right => if p.x + 1 = dims.x then none else some ⟨p.x + 1, p.y⟩
  | .Left => if p.x = 0 then none else some ⟨p.x - 1, p.y⟩

/-- The queued-direction hand-off at the start of a tick step (the match
on self.queued_direction in GameState::update). -/
def applyQueue (g : GameState) : GameState :=
  match g.queued_direction with
  | some d => { g with movement_direction := d, queued_direction := none }
  | none => g

/-- The remainder of a tick step after the queued-direction hand-off.
In the source, previous_position is read just before the hand-off, which
does not touch the head, so previous equals the head position here.
Except.error models an indexing panic. -/
def stepMove (g1 : GameState) (idx : Nat) : Except String GameState :=
  let previous := g1.head_position
  match moveHead g1.movement_direction g1.head_position g1.dimensions with
  | none => .ok { g1 with state := State.Lost }
  | some nh =>
    let g2 := { g1 with head_position := nh }
    match setOcc? g2.tiles nh.y nh.x true with
    | none => .error "index out of bounds"
    | some ts2 =>
      let g3 := { g2 with tiles := ts2 }
      let g4 :=
        if nh ∈ g3.tail_positions then { g3 with state := State.Lost } else g3
      let g5 := { g4 with tail_positions := previous :: g4.tail_positions }
      if nh = g5.fruit_position then
        match place_fruit g5.tiles idx with
        | some pt => .ok { g5 with fruit_position := pt.1, tiles := pt.2 }
        | none => .ok { g5 with state := State.Won }
      else
        match g5.tail_positions.getLast? with
        | some tp =>
          match setOcc? g5.tiles tp.x tp.y false with
          | none => .error "index out of bounds"
          | some ts3 =>
            .ok { g5 with tail_positions := g5.tail_positions.dropLast,
                          tiles := ts3 }
        | none => .ok g5

/-- The body of GameState::update after the accumulator bookkeeping: one
discrete simulation step. -/
def step (g0 : GameState) (idx : Nat) : Except String GameState :=
  stepMove (applyQueue g0) idx

/-- GameState::update of game.rs: the spec's advance_tick(elapsed_ms).
delta is the frame's elapsed time, idx the fruit-placement draw. -/
def update (g : GameState) (delta idx : Nat) : Except String GameState :=
  if g.state = State.Lost then .ok g
  else
    let ms := g.ms_since_last_update + delta
    if ms < MILLISECONDS_PER_FRAME then
      .ok { g with ms_since_last_update := ms }
    else
      step { g with ms_since_last_update := ms - MILLISECONDS_PER_FRAME } idx

/-- The grid centre, the head's starting cell in GameState::new. -/
def center (dims : Vector) : Vector := ⟨dims.x / 2, dims.y / 2⟩

/-- GameState::new of game.rs.  draws is the stream of fruit positions
produced by the gen_range pair inside the rejection loop; the loop skips
draws equal to the head's starting cell.  The outer none models the loop
never terminating on the given stream; Except.error models a panic
(rand's empty-range panic for a zero dimension, or the out-of-bounds
write column[position.x][position.y]). -/
def new (dims : Vector) (draws : List Vector) :
    Option (Except String GameState) :=
  if dims.x = 0 ∨ dims.y = 0 then some (.error "cannot sample empty range")
  else
    match draws.find? (fun p => p != center dims) with
    | none => none
    | some p =>
      match setOcc? (mkTiles dims) p.x p.y true with
      | none => some (.error "index out of bounds")
      | some ts =>
        some (.ok ⟨center dims, [], dims, ts, p, Direction.Right, none,
                   State.Running, MILLISECONDS_PER_FRAME⟩)

/-- Every gen_range draw lies inside the grid. -/
def validDraws (dims : Vector) (draws : List Vector) : Prop :=
  ∀ p ∈ draws, p.x < dims.x ∧ p.y < dims.y

/-- The positional part of the spec's Running invariant: head in bounds,
and head and tail segments pairwise distinct. -/
def Inv (g : GameState) : Prop :=
  (g.head_position.x < g.dimensions.x ∧
   g.head_position.y < g.dimensions.y) ∧
  g.head_position ∉ g.tail_positions ∧ g.tail_positions.Nodup

/-- The tile grid has dims.y rows, each of length dims.x. -/
def gridShaped (dims : Vector) (tiles : List (List Tile)) : Prop :=
  tiles.length = dims.y ∧ ∀ row ∈ tiles, row.length = dims.x

/-- Every tile records the position matching its array coordinates:
the tile at outer index i, inner index j records position (j, i). -/
def gridCoherent (tiles : List (List Tile)) : Prop :=
  ∀ (i j : Nat) (t : Tile), getTile? tiles i j = some t →
    t.position = ⟨j, i⟩

/-- An interaction event: a key press or a frame of elapsed time. -/
inductive Event where
  | key (k : KeyCode)
  | tick (delta idx : Nat)

/-- Run a sequence of interaction events. -/
def runEvents (g : GameState) : List Event → Except String GameState
  | [] => .ok g
  | .key k :: es => runEvents (key_down_event g k) es
  | .tick d i :: es =>
    match update g d i with
    | .ok g2 => runEvents g2 es
    | .error e => .error e

/-- Construct a game and run events, none on panic or divergence. -/
def runFrom (dims : Vector) (draws : List Vector) (es : List Event) :
    Option GameState :=
  match new dims draws with
  | some (.ok g) =>
    match runEvents g es with
    | .ok g2 => some g2
    | .error _ => none
  | _ => none

/-- States reachable from construction by key presses and ticks, the
randomness ranging over everything gen_range can produce. -/
inductive Reach : GameState → Prop where
  | base (dims : Vector) (draws : List Vector) (g : GameState) :
      validDraws dims draws → new dims draws = some (.ok g) → Reach g
  | key (g : GameState) (k : KeyCode) : Reach g → Reach (key_down_event g k)
  | tick (g g2 : GameState) (delta idx : Nat) :
      Reach g → update g delta idx = .ok g2 → Reach g2

/-- A fresh 2-by-2 game whose fruit draw was (0, 1). -/
def g9 : GameState :=
  ⟨⟨1, 1⟩, [], ⟨2, 2⟩,
   [[⟨⟨0, 0⟩, false⟩, ⟨⟨1, 0⟩, true⟩], [⟨⟨0, 1⟩, false⟩, ⟨⟨1, 1⟩, false⟩]],
   ⟨0, 1⟩, Direction.Right, none, State.Running, MILLISECONDS_PER_FRAME⟩

/-- A running 4-by-4 state with a drained accumulator. -/
def gRun : GameState :=
  ⟨⟨1, 1⟩, [], ⟨4, 4⟩, mkTiles ⟨4, 4⟩, ⟨0, 0⟩, Direction.Right, none,
   State.Running, 0⟩

/-- A lost 2-by-2 state. -/
def gLost : GameState :=
  ⟨⟨0, 0⟩, [], ⟨2, 2⟩, mkTiles ⟨2, 2⟩, ⟨1, 1⟩, Direction.Right, none,
   State.Lost, 0⟩

/-- A running 4-by-4 state about to move its head (at (1,1), moving Down)
onto the tail cell (1,2): the snake doubles back on itself. -/
def gBite : GameState :=
  ⟨⟨1, 1⟩, [⟨2, 1⟩, ⟨2, 2⟩, ⟨1, 2⟩], ⟨4, 4⟩, mkTiles ⟨4, 4⟩, ⟨3, 3⟩,
   Direction.Down, none, State.Running, MILLISECONDS_PER_FRAME⟩

/-- The grid of gBite after the head write of the collision tick. -/
def gBiteTiles2 : List (List Tile) :=
  (setOcc? (mkTiles ⟨4, 4⟩) 2 1 true).getD []

/-- The grid of gBite after the head write and the tail-clearing write of
the collision tick. -/
def gBiteTiles3 : List (List Tile) :=
  (setOcc? gBiteTiles2 1 2 false).getD []

/-- A running 3-by-2 state whose tail cell (2,0) makes the transposed
tail-clearing write tiles[2][0] index out of bounds (only 2 rows). -/
def gWide : GameState :=
  ⟨⟨1, 0⟩, [⟨2, 0⟩], ⟨3, 2⟩, mkTiles ⟨3, 2⟩, ⟨2, 1⟩, Direction.Left, none,
   State.Running, MILLISECONDS_PER_FRAME⟩

/-- The event sequence that drives a fresh 2-by-2 game (fruit draw (0,1))
into the Won state: circle the board eating both reachable fruits. -/
def wonEvents : List Event :=
  [.key .Up, .tick 300 0, .key .Left, .tick 300 0,
   .key .Down, .tick 300 0, .key .Right, .tick 300 0]

/-- The event sequence that drives a fresh 5-by-5 game (fruit draw (3,2))
to a Running state whose fruit sits on a tail cell: eat at (3,2), turn
Down then Left so that the transposed tail-clearing write frees the tile
under the head, then eat at (1,3) and have place_fruit choose the freed
cell (2,3), by then part of the tail. -/
def fruitOnTailEvents : List Event :=
  [.tick 300 15, .key .Down, .tick 300 0, .key .Left, .tick 300 0,
   .tick 300 15]

/- ----------------------------------------------------------------- -/
/- Helper lemmas -/
/- ----------------------------------------------------------------- -/

theorem handle_input_eq (g : GameState) (d : Direction) :
    handle_direction_input g d =
      { g with queued_direction :=
          if g.movement_direction = d.opposite then g.queued_direction
          else some d } := by
  cases d <;>
    simp only [handle_direction_input, keyOf, key_down_event,
      Direction.opposite] <;>
    split <;> rfl

theorem moveHead_ok {d : Direction} {p dims nh : Vector}
    (h : moveHead d p dims = some nh)
    (hx : p.x < dims.x) (hy : p.y < dims.y) :
    nh.x < dims.x ∧ nh.y < dims.y ∧ nh ≠ p := by
  cases d
  case Up =>
    simp only [moveHead] at h
    by_cases h0 : p.y = 0
    · rw [if_pos h0] at h; exact absurd h (by simp)
    · rw [if_neg h0] at h
      injection h with h2
      subst h2
      refine ⟨hx, by show p.y - 1 < dims.y; omega, fun he => ?_⟩
      have h3 : p.y - 1 = p.y := congrArg Vector.y he
      omega
  case Down =>
    simp only [moveHead] at h
    by_cases h0 : p.y + 1 = dims.y
    · rw [if_pos h0] at h; exact absurd h (by simp)
    · rw [if_neg h0] at h
      injection h with h2
      subst h2
      refine ⟨hx, by show p.y + 1 < dims.y; omega, fun he => ?_⟩
      have h3 : p.y + 1 = p.y := congrArg Vector.y he
      omega
  case Right =>
    simp only [moveHead] at h
    by_cases h0 : p.x + 1 = dims.x
    · rw [if_pos h0] at h; exact absurd h (by simp)
    · rw [if_neg h0] at h
      injection h with h2
      subst h2
      refine ⟨by show p.x + 1 < dims.x; omega, hy, fun he => ?_⟩
      have h3 : p.x + 1 = p.x := congrArg Vector.x he
      omega
  case Left =>
    simp only [moveHead] at h
    by_cases h0 : p.x = 0
    · rw [if_pos h0] at h; exact absurd h (by simp)
    · rw [if_neg h0] at h
      injection h with h2
      subst h2
      refine ⟨by show p.x - 1 < dims.x; omega, hy, fun he => ?_⟩
      have h3 : p.x - 1 = p.x := congrArg Vector.x he
      omega

theorem new_ok {dims : Vector} {draws : List Vector} {g : GameState}
    (h : new dims draws = some (.ok g)) :
    0 < dims.x ∧ 0 < dims.y ∧ g.head_position = center dims ∧
    g.tail_positions = [] ∧ g.dimensions = dims ∧
    g.state = State.Running ∧
    g.ms_since_last_update = MILLISECONDS_PER_FRAME := by
  unfold new at h
  by_cases h0 : dims.x = 0 ∨ dims.y = 0
  · rw [if_pos h0] at h
    simp at h
  · rw [if_neg h0] at h
    push_neg at h0
    cases hf : draws.find? (fun p => p != center dims) with
    | none => rw [hf] at h; simp at h
    | some p =>
      simp only [hf] at h
      cases hs : setOcc? (mkTiles dims) p.x p.y true with
      | none => simp only [hs] at h; simp at h
      | some ts =>
        simp only [hs] at h
        obtain rfl : (⟨center dims, [], dims, ts, p, Direction.Right, none,
            State.Running, MILLISECONDS_PER_FRAME⟩ : GameState) = g := by
          have := Option.some.inj h
          exact Except.ok.inj this
        exact ⟨Nat.pos_of_ne_zero h0.1, Nat.pos_of_ne_zero h0.2,
          rfl, rfl, rfl, rfl, rfl⟩

theorem runEvents_below (ds : List Nat) : ∀ g : GameState,
    g.state = State.Running →
    g.ms_since_last_update + ds.sum < MILLISECONDS_PER_FRAME →
    runEvents g (ds.map fun d => Event.tick d 0) =
      .ok { g with ms_since_last_update :=
              g.ms_since_last_update + ds.sum } := by
  induction ds with
  | nil => intro g hg hms; rfl
  | cons d rest ih =>
    intro g hg hms
    rw [List.sum_cons] at hms
    have hupd : update g d 0 =
        .ok { g with ms_since_last_update :=
                g.ms_since_last_update + d } := by
      unfold update
      rw [if_neg (by rw [hg]; simp), if_pos (by omega)]
    simp only [List.map_cons, runEvents, hupd]
    have hrest : ({ g with ms_since_last_update :=
        g.ms_since_last_update + d } : GameState).ms_since_last_update
          + rest.sum < MILLISECONDS_PER_FRAME := by
      show g.ms_since_last_update + d + rest.sum < MILLISECONDS_PER_FRAME
      omega
    rw [ih { g with ms_since_last_update := g.ms_since_last_update + d }
      hg hrest]
    have harith : g.ms_since_last_update + d + rest.sum =
        g.ms_since_last_update + (d + rest.sum) := by omega
    exact congrArg
      (fun n => Except.ok { g with ms_since_last_update := n }) harith

theorem mkTiles_shaped (dims : Vector) : gridShaped dims (mkTiles dims) := by
  constructor
  · simp [mkTiles]
  · intro row hrow
    simp only [mkTiles, List.mem_map] at hrow
    obtain ⟨y, -, rfl⟩ := hrow
    simp

theorem getTile?_mkTiles {dims : Vector} {i j : Nat}
    (hi : i < dims.y) (hj : j < dims.x) :
    getTile? (mkTiles dims) i j = some ⟨⟨j, i⟩, false⟩ := by
  have hi2 : i < (List.range dims.y).length := by simp; omega
  have hj2 : j < (List.range dims.x).length := by simp; omega
  simp [getTile?, mkTiles, List.getElem?_map,
    List.getElem?_range (by simpa using hi2),
    List.getElem?_range (by simpa using hj2)]

theorem mkTiles_coherent (dims : Vector) : gridCoherent (mkTiles dims) := by
  intro i j t h
  by_cases hi : i < dims.y
  · by_cases hj : j < dims.x
    · rw [getTile?_mkTiles hi hj] at h
      injection h with h2
      subst h2
      rfl
    · exfalso
      unfold getTile? mkTiles at h
      rw [List.getElem?_map, List.getElem?_range (by omega : i < dims.y)]
        at h
      simp only [Option.map_some', Option.some_bind] at h
      rw [List.getElem?_eq_none (by simp; omega)] at h
      exact Option.noConfusion h
  · exfalso
    unfold getTile? at h
    rw [List.getElem?_eq_none (by simp [mkTiles]; omega)] at h
    exact Option.noConfusion h

theorem setOcc?_spec {dims : Vector} {tiles : List (List Tile)}
    (hsh : gridShaped dims tiles) {i j : Nat} (hi : i < dims.y)
    (hj : j < dims.x) (b : Bool) :
    ∃ ts, setOcc? tiles i j b = some ts ∧ gridShaped dims ts ∧
      (gridCoherent tiles → gridCoherent ts ∧
        getTile? ts i j = some ⟨⟨j, i⟩, b⟩) := by
  obtain ⟨hlen, hrows⟩ := hsh
  have hi2 : i < tiles.length := by omega
  have hrow : tiles[i]? = some tiles[i] := List.getElem?_eq_getElem hi2
  have hmem : tiles[i] ∈ tiles := List.getElem_mem hi2
  have hrlen : tiles[i].length = dims.x := hrows _ hmem
  have hj2 : j < tiles[i].length := by omega
  have ht : tiles[i][j]? = some tiles[i][j] := List.getElem?_eq_getElem hj2
  have hpos : tiles[i][j].position = ⟨j, i⟩ → True := fun _ => trivial
  refine ⟨tiles.set i (tiles[i].set j ⟨tiles[i][j].position, b⟩),
    ?_, ⟨?_, ?_⟩, ?_⟩
  · simp only [setOcc?, hrow, ht]
  · simp [hlen]
  · intro r hr
    rcases List.mem_or_eq_of_mem_set hr with h2 | h2
    · exact hrows r h2
    · subst h2; simp [hrlen]
  · intro hc
    have hcij : tiles[i][j].position = ⟨j, i⟩ :=
      hc i j tiles[i][j] (by unfold getTile?; rw [hrow]; simp [ht])
    constructor
    · intro i2 j2 t2 h2
      unfold getTile? at h2
      by_cases hii : i2 = i
      · subst hii
        rw [List.getElem?_set_self hi2] at h2
        simp only [Option.some_bind] at h2
        by_cases hjj : j2 = j
        · subst hjj
          rw [List.getElem?_set_self hj2] at h2
          injection h2 with h3
          subst h3
          show tiles[i2][j2].position = _
          exact hcij
        · rw [List.getElem?_set_ne (Ne.symm hjj)] at h2
          exact hc i2 j2 t2 (by unfold getTile?; rw [hrow]; simpa using h2)
      · rw [List.getElem?_set_ne (Ne.symm hii)] at h2
        exact hc i2 j2 t2 h2
    · unfold getTile?
      rw [List.getElem?_set_self hi2]
      simp only [Option.some_bind]
      rw [List.getElem?_set_self hj2, hcij]

theorem key_down_cases (g : GameState) (k : KeyCode) :
    key_down_event g k = g ∨
    ∃ d, key_down_event g k = { g with queued_direction := some d } := by
  cases k
  case Up =>
    by_cases h : g.movement_direction = Direction.Down
    · exact Or.inl (by simp [key_down_event, h])
    · exact Or.inr ⟨Direction.Up, by simp [key_down_event, h]⟩
  case Down =>
    by_cases h : g.movement_direction = Direction.Up
    · exact Or.inl (by simp [key_down_event, h])
    · exact Or.inr ⟨Direction.Down, by simp [key_down_event, h]⟩
  case Left =>
    by_cases h : g.movement_direction = Direction.Right
    · exact Or.inl (by simp [key_down_event, h])
    · exact Or.inr ⟨Direction.Left, by simp [key_down_event, h]⟩
  case Right =>
    by_cases h : g.movement_direction = Direction.Left
    · exact Or.inl (by simp [key_down_event, h])
    · exact Or.inr ⟨Direction.Right, by simp [key_down_event, h]⟩
  case Other => exact Or.inl rfl

theorem stepMove_ok_running {g1 gr : GameState} {idx : Nat}
    (h : stepMove g1 idx = .ok gr) (hr : gr.state = State.Running) :
    g1.state = State.Running ∧ (Inv g1 → Inv gr) := by
  simp only [stepMove] at h
  cases hm : moveHead g1.movement_direction g1.head_position g1.dimensions
    with
  | none =>
    simp only [hm] at h
    injection h with h2
    subst h2
    simp at hr
  | some nh =>
    simp only [hm] at h
    cases hs : setOcc? g1.tiles nh.y nh.x true with
    | none => simp only [hs] at h; exact absurd h (by simp)
    | some ts2 =>
      simp only [hs] at h
      by_cases hmem : nh ∈ g1.tail_positions
      · rw [if_pos hmem] at h
        by_cases hfr : nh = g1.fruit_position
        · rw [if_pos hfr] at h
          cases hp : place_fruit ts2 idx with
          | some pt =>
            simp only [hp] at h; injection h with h2; subst h2; simp at hr
          | none =>
            simp only [hp] at h; injection h with h2; subst h2; simp at hr
        · rw [if_neg hfr] at h
          cases hl : (g1.head_position :: g1.tail_positions).getLast? with
          | none =>
            simp only [hl] at h; injection h with h2; subst h2; simp at hr
          | some tp =>
            simp only [hl] at h
            cases hs3 : setOcc? ts2 tp.x tp.y false with
            | none => simp only [hs3] at h; exact absurd h (by simp)
            | some ts3 =>
              simp only [hs3] at h; injection h with h2; subst h2
              simp at hr
      · rw [if_neg hmem] at h
        by_cases hfr : nh = g1.fruit_position
        · rw [if_pos hfr] at h
          cases hp : place_fruit ts2 idx with
          | some pt =>
            simp only [hp] at h; injection h with h2; subst h2
            refine ⟨hr, fun hinv => ?_⟩
            obtain ⟨⟨hhx, hhy⟩, hnm, hnd⟩ := hinv
            obtain ⟨hbx, hby, hne⟩ := moveHead_ok hm hhx hhy
            refine ⟨⟨hbx, hby⟩, ?_, List.nodup_cons.mpr ⟨hnm, hnd⟩⟩
            rw [List.mem_cons]
            rintro (hc | hc)
            · exact hne hc
            · exact hmem hc
          | none =>
            simp only [hp] at h; injection h with h2; subst h2; simp at hr
        · rw [if_neg hfr] at h
          cases hl : (g1.head_position :: g1.tail_positions).getLast? with
          | none =>
            simp only [hl] at h; injection h with h2; subst h2
            refine ⟨hr, fun hinv => ?_⟩
            obtain ⟨⟨hhx, hhy⟩, hnm, hnd⟩ := hinv
            obtain ⟨hbx, hby, hne⟩ := moveHead_ok hm hhx hhy
            refine ⟨⟨hbx, hby⟩, ?_, List.nodup_cons.mpr ⟨hnm, hnd⟩⟩
            rw [List.mem_cons]
            rintro (hc | hc)
            · exact hne hc
            · exact hmem hc
          | some tp =>
            simp only [hl] at h
            cases hs3 : setOcc? ts2 tp.x tp.y false with
            | none => simp only [hs3] at h; exact absurd h (by simp)
            | some ts3 =>
              simp only [hs3] at h; injection h with h2; subst h2
              refine ⟨hr, fun hinv => ?_⟩
              obtain ⟨⟨hhx, hhy⟩, hnm, hnd⟩ := hinv
              obtain ⟨hbx, hby, hne⟩ := moveHead_ok hm hhx hhy
              have hsub :
                  List.Sublist
                    ((g1.head_position :: g1.tail_positions).dropLast)
                    (g1.head_position :: g1.tail_positions) :=
                List.dropLast_sublist _
              refine ⟨⟨hbx, hby⟩, fun hc => ?_, ?_⟩
              · rcases List.mem_cons.mp (hsub.subset hc) with hc2 | hc2
                · exact hne hc2
                · exact hmem hc2
              · exact (List.nodup_cons.mpr ⟨hnm, hnd⟩).sublist hsub

theorem step_ok_running {g gr : GameState} {idx : Nat}
    (h : step g idx = .ok gr) (hr : gr.state = State.Running) :
    g.state = State.Running ∧ (Inv g → Inv gr) := by
  obtain ⟨h1, h2⟩ := stepMove_ok_running h hr
  cases hq : g.queued_direction with
  | none =>
    have ha : applyQueue g = g := by simp [applyQueue, hq]
    rw [ha] at h1 h2
    exact ⟨h1, h2⟩
  | some d =>
    have ha : applyQueue g =
        { g with movement_direction := d, queued_direction := none } := by
      simp [applyQueue, hq]
    rw [ha] at h1 h2
    exact ⟨h1, h2⟩

/- ----------------------------------------------------------------- -/
/- Claim theorems -/
/- ----------------------------------------------------------------- -/

/-- Claim C1, counterexample: a reachable Won state (fresh 2-by-2 game
driven to Won by wonEvents) is further mutated by update: one more tick
turns its status from Won to Lost, and after queueing Up one more tick
moves the head and changes the tail, contradicting terminal-monotonicity
of Won. -/
theorem C1_won_not_frozen_cx :
    ((runFrom ⟨2, 2⟩ [⟨0, 1⟩] wonEvents).map fun g =>
      decide (g.state = State.Won) &&
        (match update g 300 0 with
         | .ok g3 => decide (g3.state = State.Lost)
         | .error _ => false) &&
        (match update (key_down_event g .Up) 300 0 with
         | .ok g2 => decide (g2.head_position ≠ g.head_position) &&
             decide (g2.tail_positions ≠ g.tail_positions)
         | .error _ => false)) = some true := by rfl

/-- Claim C1, amended: only Lost is frozen — once the status is Lost,
update returns the state entirely unchanged (Won states keep being
stepped, as the counterexample shows). -/
theorem C1_lost_frozen (g : GameState) (delta idx : Nat)
    (h : g.state = State.Lost) : update g delta idx = .ok g := by
  simp [update, h]

/-- Witness for C1_lost_frozen at the concrete lost state gLost. -/
theorem C1_lost_frozen_witness : update gLost 300 0 = .ok gLost :=
  C1_lost_frozen gLost 300 0 rfl

/-- Claim C2, counterexample: on the collision tick of gBite (head moves
Down onto tail cell (1,2)), the status becomes Lost but the tick does not
stop: the previous head (1,1) is pushed and the oldest segment (1,2) is
popped, so the tail changes from [(2,1),(2,2),(1,2)] to
[(1,1),(2,1),(2,2)]. -/
theorem C2_pop_after_collision_cx :
    (match update gBite 0 0 with
     | .ok g2 => decide (g2.state = State.Lost) &&
         decide (g2.tail_positions = [⟨1, 1⟩, ⟨2, 1⟩, ⟨2, 2⟩]) &&
         decide (gBite.tail_positions = [⟨2, 1⟩, ⟨2, 2⟩, ⟨1, 2⟩])
     | .error _ => false) = true := by rfl

/-- Claim C2, amended: when the new head position lies on a tail cell
the step sets status = Lost but does not stop: the previous head is
still pushed onto the tail front and (when the new head is not on the
fruit) the oldest tail segment is still popped, with its transposed tile
write; updates only halt from the next call onwards. -/
theorem C2_collision_continues (g : GameState) (idx : Nat) (nh tp : Vector)
    (ts2 ts3 : List (List Tile))
    (hq : g.queued_direction = none)
    (hm : moveHead g.movement_direction g.head_position g.dimensions =
      some nh)
    (hs : setOcc? g.tiles nh.y nh.x true = some ts2)
    (hmem : nh ∈ g.tail_positions)
    (hfr : nh ≠ g.fruit_position)
    (hlast : (g.head_position :: g.tail_positions).getLast? = some tp)
    (hs3 : setOcc? ts2 tp.x tp.y false = some ts3) :
    step g idx = .ok { g with
      head_position := nh,
      tiles := ts3,
      state := State.Lost,
      tail_positions := (g.head_position :: g.tail_positions).dropLast } := by
  simp only [step, stepMove, applyQueue, hq, hm, hs, hmem, hfr, hlast, hs3,
    if_true, if_pos, ite_true, ite_false, if_neg, not_false_iff]

/-- Witness for C2_collision_continues at the concrete state gBite. -/
theorem C2_collision_continues_witness :
    step gBite 0 = .ok { gBite with
      head_position := ⟨1, 2⟩,
      tiles := gBiteTiles3,
      state := State.Lost,
      tail_positions :=
        (gBite.head_position :: gBite.tail_positions).dropLast } :=
  C2_collision_continues gBite 0 ⟨1, 2⟩ ⟨1, 2⟩ gBiteTiles2 gBiteTiles3
    rfl rfl rfl (by decide) (by decide) rfl rfl

/-- Claim C3, counterexample: a state reachable from construction (5-by-5
grid, fruit draw (3,2), then fruitOnTailEvents) is Running while its
fruit position lies on a tail segment: the transposed tail-clearing
write frees a tile still covered by the snake and place_fruit then
selects it. -/
theorem C3_fruit_on_tail_cx :
    ((runFrom ⟨5, 5⟩ [⟨3, 2⟩] fruitOnTailEvents).map fun g =>
      decide (g.state = State.Running) &&
        decide (g.fruit_position ∈ g.tail_positions)) = some true := by rfl

set_option maxRecDepth 4000 in
/-- Claim C3, amended: for every state reachable from construction by
key presses and ticks, while the status is Running the head position is
within grid bounds and the head and all tail segments are pairwise
distinct — but (see the counterexample) the fruit-disjointness part of
the claim fails: the fruit can come to lie on a tail segment. -/
theorem C3_running_invariant (g : GameState) (hr : Reach g)
    (hrun : g.state = State.Running) :
    (g.head_position.x < g.dimensions.x ∧
     g.head_position.y < g.dimensions.y) ∧
    g.head_position ∉ g.tail_positions ∧ g.tail_positions.Nodup := by
  suffices h : g.state = State.Running → Inv g from h hrun
  clear hrun
  induction hr with
  | base dims draws g0 hvalid hnew =>
    intro hrun
    obtain ⟨hx0, hy0, hhead, htail, hdims, -, -⟩ := new_ok hnew
    constructor
    · rw [hhead, hdims]
      exact ⟨Nat.div_lt_self hx0 one_lt_two,
        Nat.div_lt_self hy0 one_lt_two⟩
    · rw [htail]
      exact ⟨List.not_mem_nil _, List.nodup_nil⟩
  | key g0 k hg ih =>
    intro hrun
    rcases key_down_cases g0 k with he | ⟨d, he⟩ <;> rw [he] at hrun ⊢ <;>
      exact ih hrun
  | tick g0 g1 delta idx hg hupd ih =>
    intro hrun
    simp only [update] at hupd
    by_cases hlost : g0.state = State.Lost
    · rw [if_pos hlost] at hupd
      injection hupd with h2
      subst h2
      exact ih hrun
    · rw [if_neg hlost] at hupd
      by_cases hms :
          g0.ms_since_last_update + delta < MILLISECONDS_PER_FRAME
      · rw [if_pos hms] at hupd
        injection hupd with h2
        subst h2
        exact ih hrun
      · rw [if_neg hms] at hupd
        obtain ⟨hst, himp⟩ := step_ok_running hupd hrun
        have hst2 : g0.state = State.Running := hst
        have hinv0 : Inv g0 := ih hst2
        exact himp hinv0

/-- Witness for C3_running_invariant at the fresh reachable state g9. -/
theorem C3_running_invariant_witness :
    (g9.head_position.x < g9.dimensions.x ∧
     g9.head_position.y < g9.dimensions.y) ∧
    g9.head_position ∉ g9.tail_positions ∧ g9.tail_positions.Nodup :=
  C3_running_invariant g9
    (Reach.base ⟨2, 2⟩ [⟨0, 1⟩] g9
      (by
        intro p hp
        rw [List.mem_singleton] at hp
        subst hp
        exact ⟨by decide, by decide⟩)
      rfl)
    rfl

/-- Claim C4, counterexample: on the 2-by-3 grid (6 cells, at least 2)
with the in-range fruit draw (0,2), construction does not return a valid
Simulation: the transposed write column[0][2] indexes out of bounds
(rows have length 2), a panic. -/
theorem C4_no_error_cx :
    new ⟨2, 3⟩ [⟨0, 2⟩] = some (.error "index out of bounds") := by rfl

/-- Claim C4, amended: new never returns a constructor error. On a 1-by-1
grid the fruit rejection loop never terminates for any in-range draw
stream; with a zero dimension the random sampling panics; and whenever
construction does return a state, that state is Running — but (see the
counterexample) for non-square grids the transposed fruit write can
panic, so some grids with at least 2 cells yield no Simulation either. -/
theorem C4_no_guard :
    (∀ draws : List Vector, validDraws ⟨1, 1⟩ draws →
      new ⟨1, 1⟩ draws = none) ∧
    (∀ (dims : Vector) (draws : List Vector), dims.x = 0 ∨ dims.y = 0 →
      new dims draws = some (.error "cannot sample empty range")) ∧
    (∀ (dims : Vector) (draws : List Vector) (g : GameState),
      new dims draws = some (.ok g) → g.state = State.Running) := by
  refine ⟨?_, ?_, ?_⟩
  · intro draws hv
    unfold new
    rw [if_neg (by simp)]
    have hnone : draws.find? (fun p => p != center ⟨1, 1⟩) = none := by
      rw [List.find?_eq_none]
      intro p hp
      obtain ⟨h1, h2⟩ := hv p hp
      obtain ⟨px, py⟩ := p
      have h1x : px < 1 := h1
      have h2y : py < 1 := h2
      have hx : px = 0 := by omega
      have hy : py = 0 := by omega
      subst hx; subst hy
      decide
    rw [hnone]
  · intro dims draws h0
    unfold new
    rw [if_pos h0]
  · intro dims draws g h
    exact (new_ok h).2.2.2.2.2.1

/-- Witness for C4_no_guard: the 1-by-1 grid diverges on the constant
in-range draw stream, and a zero-width grid panics in gen_range. -/
theorem C4_no_guard_witness :
    new ⟨1, 1⟩ [⟨0, 0⟩] = none ∧
    new ⟨0, 5⟩ [] = some (.error "cannot sample empty range") :=
  ⟨C4_no_guard.1 [⟨0, 0⟩]
      (by
        intro p hp
        rw [List.mem_singleton] at hp
        subst hp
        exact ⟨Nat.zero_lt_one, Nat.zero_lt_one⟩),
    C4_no_guard.2.1 ⟨0, 5⟩ [] (Or.inl rfl)⟩

/-- Claim C5, counterexample: on the non-square 3-by-2 grid both
transposed occupancy writes index out of bounds for valid positions:
the tail-clearing write of update at tail cell (2,0) panics, and the
fruit write of new at the valid draw (2,0) panics. -/
theorem C5_transposed_cx :
    update gWide 0 0 = .error "index out of bounds" ∧
    new ⟨3, 2⟩ [⟨2, 0⟩] = some (.error "index out of bounds") :=
  ⟨rfl, rfl⟩

/-- Claim C5, amended: the construction layout records position (j, i)
at array coordinates [i][j], and the head write of update
(tiles[head.y][head.x]) is the consistent orientation: for every
in-bounds position it stays in bounds and addresses exactly the tile
recording that position, on any well-shaped coherent grid — but (see
the counterexample) the fruit write of new (column[x][y]) and the
tail-clearing write of update (tiles[tail.x][tail.y]) are transposed
and index out of bounds on non-square grids. -/
theorem C5_head_write_consistent (dims p : Vector)
    (tiles : List (List Tile)) (b : Bool)
    (hsh : gridShaped dims tiles) (hc : gridCoherent tiles)
    (hx : p.x < dims.x) (hy : p.y < dims.y) :
    gridCoherent (mkTiles dims) ∧
    ∃ ts, setOcc? tiles p.y p.x b = some ts ∧ gridShaped dims ts ∧
      gridCoherent ts ∧ getTile? ts p.y p.x = some ⟨p, b⟩ := by
  refine ⟨mkTiles_coherent dims, ?_⟩
  obtain ⟨ts, hset, hsh2, hrest⟩ := setOcc?_spec hsh hy hx b
  obtain ⟨hc2, hget⟩ := hrest hc
  exact ⟨ts, hset, hsh2, hc2, hget⟩

/-- Witness for C5_head_write_consistent on the 3-by-2 grid at the valid
position (2, 0) — the very grid and position on which the transposed
writes panic. -/
theorem C5_head_write_consistent_witness :
    gridCoherent (mkTiles ⟨3, 2⟩) ∧
    ∃ ts, setOcc? (mkTiles ⟨3, 2⟩) 0 2 true = some ts ∧
      gridShaped ⟨3, 2⟩ ts ∧ gridCoherent ts ∧
      getTile? ts 0 2 = some ⟨⟨2, 0⟩, true⟩ :=
  C5_head_write_consistent ⟨3, 2⟩ ⟨2, 0⟩ (mkTiles ⟨3, 2⟩) true
    (mkTiles_shaped ⟨3, 2⟩) (mkTiles_coherent ⟨3, 2⟩)
    (by decide) (by decide)

/-- Claim C6, counterexample: key_down_event performs no status check: in
a reachable Lost state (fresh 2-by-2 game lost by moving Right into the
wall), pressing Up still overwrites the queued direction. -/
theorem C6_no_status_check_cx :
    ((runFrom ⟨2, 2⟩ [⟨0, 1⟩] [.tick 300 0]).map fun g =>
      decide (g.state = State.Lost) && decide (g.queued_direction = none) &&
        decide ((key_down_event g .Up).queued_direction =
          some Direction.Up)) = some true := by rfl

/-- Claim C6, amended: a direction input mutates only the queued
direction, and does so exactly when the input is not the opposite of the
active movement direction — independently of the status, which is never
consulted (the equations hold for every state, Running or not). -/
theorem C6_input_only_queued (g : GameState) (d : Direction) :
    ((handle_direction_input g d).head_position = g.head_position ∧
     (handle_direction_input g d).tail_positions = g.tail_positions ∧
     (handle_direction_input g d).tiles = g.tiles ∧
     (handle_direction_input g d).fruit_position = g.fruit_position ∧
     (handle_direction_input g d).movement_direction =
       g.movement_direction ∧
     (handle_direction_input g d).state = g.state ∧
     (handle_direction_input g d).ms_since_last_update =
       g.ms_since_last_update) ∧
    (handle_direction_input g d).queued_direction =
      (if g.movement_direction = d.opposite then g.queued_direction
       else some d) := by
  rw [handle_input_eq]
  exact ⟨⟨rfl, rfl, rfl, rfl, rfl, rfl, rfl⟩, rfl⟩

/-- Claim C7, counterexample: in a fresh 10-by-10 game (fruit draw (0,0)),
one advance_tick(300) moves the head to (6,5) and leaves the status
Running, but the tail queue is empty, not [(5,5)]: the previous head is
pushed and then popped in the same non-eating tick. -/
theorem C7_tail_not_pushed_cx :
    ((runFrom ⟨10, 10⟩ [⟨0, 0⟩] [.tick 300 0]).map fun g =>
      decide (g.head_position = ⟨6, 5⟩) && decide (g.state = State.Running)
        && decide (g.tail_positions = []) &&
        decide (g.tail_positions ≠ [⟨5, 5⟩])) = some true := by rfl

/-- Claim C7, amended: in a fresh 10-by-10 game (head (5,5), direction
Right, accumulator at the 300 ms tick duration, fruit draw p neither on
the head nor at (6,5)), a single advance_tick(300) moves the head to
(6,5) and leaves the status Running — but the tail queue ends empty, not
[(5,5)]: the previous head is pushed and popped in the same tick. -/
theorem C7_first_tick (p : Vector) (idx : Nat)
    (hx : p.x < 10) (hy : p.y < 10) (hne : p ≠ ⟨5, 5⟩)
    (hnf : p ≠ ⟨6, 5⟩) :
    ∃ g0 g1, new ⟨10, 10⟩ [p] = some (.ok g0) ∧
      update g0 300 idx = .ok g1 ∧ g1.head_position = ⟨6, 5⟩ ∧
      g1.tail_positions = [] ∧ g1.state = State.Running ∧
      g1.fruit_position = p := by
  obtain ⟨ts, hset, hsh, -⟩ :=
    setOcc?_spec (mkTiles_shaped ⟨10, 10⟩) hx hy true
  obtain ⟨ts2, hset2, hsh2, -⟩ :=
    setOcc?_spec hsh (show (5 : Nat) < 10 by decide)
      (show (6 : Nat) < 10 by decide) true
  obtain ⟨ts3, hset3, hsh3, -⟩ :=
    setOcc?_spec hsh2 (show (5 : Nat) < 10 by decide)
      (show (5 : Nat) < 10 by decide) false
  have hnew : new ⟨10, 10⟩ [p] = some (.ok
      ⟨⟨5, 5⟩, [], ⟨10, 10⟩, ts, p, Direction.Right, none, State.Running,
       MILLISECONDS_PER_FRAME⟩) := by
    unfold new
    rw [if_neg (by simp)]
    have hfind : [p].find? (fun q => q != center ⟨10, 10⟩) = some p :=
      List.find?_cons_of_pos _ (by simp [center, bne_iff_ne]; exact hne)
    simp only [hfind, hset]
    rfl
  refine ⟨_, ⟨⟨6, 5⟩, [], ⟨10, 10⟩, ts3, p, Direction.Right, none,
    State.Running, MILLISECONDS_PER_FRAME⟩, hnew, ?_, rfl, rfl, rfl, rfl⟩
  simp only [update]
  rw [if_neg (by simp), if_neg (by decide)]
  simp only [step, applyQueue, stepMove]
  simp only
    [show moveHead Direction.Right ⟨5, 5⟩ ⟨10, 10⟩ = some ⟨6, 5⟩ from rfl]
  simp only [hset2]
  rw [if_neg (List.not_mem_nil _), if_neg (Ne.symm hnf)]
  simp only [show ([⟨5, 5⟩] : List Vector).getLast? = some ⟨5, 5⟩ from rfl]
  simp only [hset3]
  rfl

/-- Witness for C7_first_tick at the concrete fruit draw (0,0). -/
theorem C7_first_tick_witness :
    ∃ g0 g1, new ⟨10, 10⟩ [⟨0, 0⟩] = some (.ok g0) ∧
      update g0 300 0 = .ok g1 ∧ g1.head_position = ⟨6, 5⟩ ∧
      g1.tail_positions = [] ∧ g1.state = State.Running ∧
      g1.fruit_position = ⟨0, 0⟩ :=
  C7_first_tick ⟨0, 0⟩ 0 (by decide) (by decide) (by decide) (by decide)

/-- Claim C9: after construction the accumulator equals the tick duration
(300 ms), so the very first advance_tick call with zero elapsed time
already crosses the threshold and performs exactly one simulation step. -/
theorem C9_first_tick_immediate (dims : Vector) (draws : List Vector)
    (g : GameState) (idx : Nat) (h : new dims draws = some (.ok g)) :
    g.ms_since_last_update = MILLISECONDS_PER_FRAME ∧
    update g 0 idx = step { g with ms_since_last_update := 0 } idx := by
  obtain ⟨-, -, -, -, -, hst, hms⟩ := new_ok h
  refine ⟨hms, ?_⟩
  simp only [update]
  rw [if_neg (by rw [hst]; simp), if_neg (by rw [hms]; decide)]
  have harith : g.ms_since_last_update + 0 - MILLISECONDS_PER_FRAME = 0 := by
    rw [hms]; decide
  exact congrArg
    (fun n => step { g with ms_since_last_update := n } idx) harith

/-- Witness for C9_first_tick_immediate at the fresh 2-by-2 game g9. -/
theorem C9_first_tick_immediate_witness :
    g9.ms_since_last_update = MILLISECONDS_PER_FRAME ∧
    update g9 0 0 = step { g9 with ms_since_last_update := 0 } 0 :=
  C9_first_tick_immediate ⟨2, 2⟩ [⟨0, 1⟩] g9 0 rfl

/-- Claim C8: fixed-step accumulation.  From a Running state, any
sequence of ticks whose elapsed deltas keep the accumulator strictly
below 300 ms changes nothing but the accumulator, which just adds up;
and the first call that brings it to or over 300 ms executes exactly one
step, subtracting exactly 300 ms (never more than one step per call). -/
theorem C8_fixed_step (g : GameState) (ds : List Nat) (delta idx : Nat)
    (hrun : g.state = State.Running) :
    (g.ms_since_last_update + ds.sum < MILLISECONDS_PER_FRAME →
      runEvents g (ds.map fun d => Event.tick d 0) =
        .ok { g with ms_since_last_update :=
                g.ms_since_last_update + ds.sum }) ∧
    (MILLISECONDS_PER_FRAME ≤ g.ms_since_last_update + delta →
      update g delta idx =
        step { g with ms_since_last_update :=
                 g.ms_since_last_update + delta - MILLISECONDS_PER_FRAME }
          idx) := by
  constructor
  · intro h
    exact runEvents_below ds g hrun h
  · intro h
    simp only [update]
    rw [if_neg (by rw [hrun]; simp), if_neg (by omega)]

/-- Witness for C8_fixed_step: from gRun (accumulator 0), two 100 ms
frames only raise the accumulator to 200, and a 300 ms frame fires one
step with the accumulator drained to 0. -/
theorem C8_fixed_step_witness :
    runEvents gRun ([100, 100].map fun d => Event.tick d 0) =
      .ok { gRun with ms_since_last_update :=
              gRun.ms_since_last_update + [100, 100].sum } ∧
    update gRun 300 0 =
      step { gRun with ms_since_last_update :=
               gRun.ms_since_last_update + 300 - MILLISECONDS_PER_FRAME }
        0 :=
  ⟨(C8_fixed_step gRun [100, 100] 300 0 rfl).1 (by decide),
   (C8_fixed_step gRun [100, 100] 300 0 rfl).2 (by decide)⟩

/-- Claim C10: a direction input equal to the exact opposite of the
active movement direction is ignored entirely: the state, including the
queued direction, is returned unchanged. -/
theorem C10_reversal_ignored (g : GameState) (d : Direction)
    (h : g.movement_direction = d.opposite) :
    handle_direction_input g d = g := by
  rw [handle_input_eq, if_pos h]

/-- Witness for C10_reversal_ignored: gRun moves Right, so a Left input
changes nothing. -/
theorem C10_reversal_ignored_witness :
    handle_direction_input gRun Direction.Left = gRun :=
  C10_reversal_ignored gRun Direction.Left rfl

end Snake
